import Mathlib

/-!
Verification of `nevergrad/functions/rl/base.py`.

Python dictionaries are modelled as association lists `List (String × α)`
with unique-key discipline where the source guarantees it; `dict.get` is
`dget`, `dict.__setitem__` is `dictSet` (overwrite in place, else append,
matching insertion-order semantics), `dict.update` is `dictUpdate`.
Fallible code returns `Except ErrKind`, where `ErrKind` names the Python
exception class raised.  Stateful classes are split into an immutable
record plus an explicit state value threaded through their methods.
Python floats are modelled as exact rationals.
-/

/-- Python exception classes that the embedded code can raise. -/
inductive ErrKind : Type
  | valueError
  | keyError
  | assertionError
  | attributeError
  | zeroDivisionError
deriving DecidableEq

/-- Python `m.get(k)` / `m[k]` lookup on a dict modelled as an association
list: returns the value at the first matching key, if any. -/
def dget {α : Type} : List (String × α) → String → Option α
  | [], _ => none
  | p :: rest, k => if p.1 = k then some p.2 else dget rest k

/-- Python `k in m` on a list of keys. -/
def memb (l : List String) (k : String) : Bool :=
  l.any (fun x => decide (x = k))

/-- Python `m[k] = v`: overwrite the value in place when the key is
present (keeping its position), otherwise append the new binding. -/
def dictSet {α : Type} (m : List (String × α)) (k : String) (v : α) : List (String × α) :=
  if (dget m k).isSome then m.map (fun p => if p.1 = k then (p.1, v) else p)
  else m ++ [(k, v)]

/-- Python `m.update(upd)`: set every binding of `upd` into `m` in order. -/
def dictUpdate {α : Type} : List (String × α) → List (String × α) → List (String × α)
  | m, [] => m
  | m, p :: rest => dictUpdate (dictSet m p.1 p.2) rest

/-- Exception propagation: run `f` on the payload unless an exception is
already in flight. -/
def ebind {α β : Type} (x : Except ErrKind α) (f : α → Except ErrKind β) :
    Except ErrKind β :=
  match x with
  | .error e => .error e
  | .ok a => f a

/-- Structural `mapM` over `Except ErrKind`, used to model comprehensions
whose body may raise. -/
def emapM {α β : Type} (f : α → Except ErrKind β) : List α → Except ErrKind (List β)
  | [] => .ok []
  | a :: rest => ebind (f a) (fun b => ebind (emapM f rest) (fun bs => .ok (b :: bs)))

/-- `StepOutcome` from `base.py`: the per-agent bundle
(observation, reward, done, info).  `reward` is `Option R` because Python
defaults it to `None`; `info` is a Python dict, modelled `List (K × V)`,
defaulting to `{}`. -/
structure StepOutcome (O R K V : Type) : Type where
  observation : O
  reward : Option R
  done : Bool
  info : List (K × V)
deriving DecidableEq

/-- The multi-agent wire shape produced by `to_multiagent_step` (the
`StepReturn` alias of the source): observation, reward, done and info
dicts, rewards possibly `None`. -/
abbrev WireStep (O R K V : Type) : Type :=
  List (String × O) × List (String × Option R) × List (String × Bool) × List (String × List (K × V))

/-- The raw multi-agent shape returned by a base environment's `step`:
same four dicts but with rewards present as plain values. -/
abbrev RawStep (O R K V : Type) : Type :=
  List (String × O) × List (String × R) × List (String × Bool) × List (String × List (K × V))

/-- `StepOutcome.from_multiagent_step`: for every name in `obs` build an
outcome from `reward.get(name, None)`,
`done.get(name, done.get("__all__", False))`, `info.get(name, {})`; also
return `done.get("__all__", False)`. -/
def from_multiagent_step {O R K V : Type} (obs : List (String × O)) (reward : List (String × R))
    (done : List (String × Bool)) (info : List (String × List (K × V))) :
    List (String × StepOutcome O R K V) × Bool :=
  (obs.map (fun p =>
      (p.1, StepOutcome.mk p.2 (dget reward p.1)
        ((dget done p.1).getD ((dget done "__all__").getD false))
        ((dget info p.1).getD []))),
   (dget done "__all__").getD false)

/-- `StepOutcome.to_multiagent_step`: project the four fields out of the
outcome dict and set `done_dict["__all__"]` to the supplied flag. -/
def to_multiagent_step {O R K V : Type} (outcomes : List (String × StepOutcome O R K V))
    (done : Bool) : WireStep O R K V :=
  (outcomes.map (fun p => (p.1, p.2.observation)),
   outcomes.map (fun p => (p.1, p.2.reward)),
   dictSet (outcomes.map (fun p => (p.1, p.2.done))) "__all__" done,
   outcomes.map (fun p => (p.1, p.2.info)))

/-- The round-trip under test in C1: convert a wire-shaped step to
per-agent outcomes and back, with the flag `done.get("__all__", False)`. -/
def roundTripped {O R K V : Type} (obs : List (String × O)) (reward : List (String × R))
    (done : List (String × Bool)) (info : List (String × List (K × V))) : WireStep O R K V :=
  to_multiagent_step (from_multiagent_step obs reward done info).1
    ((dget done "__all__").getD false)

/-! ### The multi-agent environment contract and the delegation wrapper

A base `MultiAgentEnv` is an external collaborator; it is modelled as a
record of pure functions over an explicit state type `S`.  `copy` yields
the state of a fresh independent instance.  An agent is modelled by its
`act` capability (the base class's `reset` is a no-op and `copy`
default-constructs, so the abstract agent contract carries no state of
its own). -/
structure MAEnv (S O A R K V : Type) : Type where
  agent_names : List String
  copy : S → S
  reset : S → S × List (String × O)
  step : S → List (String × A) → S × RawStep O R K V

/-- The agent contract: `act(observation, reward, done, info) -> action`. -/
def AgentF (O A R K V : Type) : Type :=
  O → Option R → Bool → List (K × V) → A

/-- `PartialMultiAgentEnv` minus its mutable state: the (copied) base
environment, the delegated agents, and the exposed remaining
`agent_names`.  The observation/action space attributes are irrelevant to
the claims and omitted. -/
structure PMAEnv (S O A R K V : Type) : Type where
  base : MAEnv S O A R K V
  agents : List (String × AgentF O A R K V)
  agent_names : List String

/-- The wrapper's mutable state: the owned environment copy's state and
the cached `_agents_outcome` dict. -/
structure PMAState (S O R K V : Type) : Type where
  envState : S
  agentsOutcome : List (String × StepOutcome O R K V)

/-- `PartialMultiAgentEnv.__init__`: copy the base environment, copy the
agents, reset the copied environment (discarding the returned
observations), reject delegated names outside `agent_names` with
`ValueError`, expose the remaining names in base order, and set
`_agents_outcome = {}`. -/
def pmaInit {S O A R K V : Type} (env : MAEnv S O A R K V) (s : S)
    (ags : List (String × AgentF O A R K V)) :
    Except ErrKind (PMAEnv S O A R K V × PMAState S O R K V) :=
  let s1 := env.copy s
  let s2 := (env.reset s1).1
  if (ags.map Prod.fst).all (fun n => memb env.agent_names n) then
    .ok (⟨env, ags, env.agent_names.filter (fun an => !(memb (ags.map Prod.fst) an))⟩,
         ⟨s2, []⟩)
  else .error .valueError

/-- `PartialMultiAgentEnv.reset`: reset the base env, convert the raw
observations into outcomes, cache the delegated agents' outcomes
(a missing delegated name is a `KeyError`), and return only the
non-delegated observations. -/
def pmaReset {S O A R K V : Type} (w : PMAEnv S O A R K V) (st : PMAState S O R K V) :
    Except ErrKind (PMAState S O R K V × List (String × O)) :=
  let r := w.base.reset st.envState
  let ocs := (from_multiagent_step r.2 ([] : List (String × R)) [] []).1
  ebind (emapM (fun p =>
      match dget ocs p.1 with
      | some oc => (.ok (p.1, oc) : Except ErrKind (String × StepOutcome O R K V))
      | none => .error .keyError) w.agents) (fun cache =>
    .ok (⟨r.1, cache⟩,
      (ocs.filter (fun p => !(memb (w.agents.map Prod.fst) p.1))).map
        (fun p => (p.1, p.2.observation))))

/-- The full action dict built at the top of `PartialMultiAgentEnv.step`:
each cached delegated outcome is fed to its agent's `act`, then the
caller's `action_dict` is `update`d over the result, so caller entries
win on any key collision. -/
def fullActionDict {S O A R K V : Type} (w : PMAEnv S O A R K V) (st : PMAState S O R K V)
    (action_dict : List (String × A)) : Except ErrKind (List (String × A)) :=
  ebind (emapM (fun p =>
      match dget w.agents p.1 with
      | some ag =>
        (.ok (p.1, ag p.2.observation p.2.reward p.2.done p.2.info) :
          Except ErrKind (String × A))
      | none => .error .keyError) st.agentsOutcome) (fun delegActs =>
    .ok (dictUpdate delegActs action_dict))

/-- `PartialMultiAgentEnv.step`: build the full action dict, step the base
environment with it, re-derive outcomes and the overall-done flag,
re-cache the delegated agents' outcomes, and return the wire shape
restricted to non-delegated names with the overall flag. -/
def pmaStep {S O A R K V : Type} (w : PMAEnv S O A R K V) (st : PMAState S O R K V)
    (action_dict : List (String × A)) :
    Except ErrKind (PMAState S O R K V × WireStep O R K V) :=
  ebind (fullActionDict w st action_dict) (fun full =>
    let r := w.base.step st.envState full
    let fm := from_multiagent_step r.2.1 r.2.2.1 r.2.2.2.1 r.2.2.2.2
    ebind (emapM (fun p =>
        match dget fm.1 p.1 with
        | some oc => (.ok (p.1, oc) : Except ErrKind (String × StepOutcome O R K V))
        | none => .error .keyError) w.agents) (fun cache =>
      .ok (⟨r.1, cache⟩,
        to_multiagent_step (fm.1.filter (fun p => !(memb (w.agents.map Prod.fst) p.1))) fm.2)))

/-- `SingleAgentEnv` after construction: it keeps the original wrapper
(`self.env = env` on the last line of `__init__`) and the single
remaining agent name. -/
structure SAEnv (S O A R K V : Type) : Type where
  env : PMAEnv S O A R K V
  agentName : String

/-- `PartialMultiAgentEnv.as_single_agent` / `SingleAgentEnv.__init__`.
When the number of remaining agent names differs from one, the `assert`
condition is false; its message
`f"Too many remaining agents: {self.agent_names}"` then reads
`self.agent_names`, which is never defined on `SingleAgentEnv`, so Python
raises `AttributeError` (not `AssertionError`) while formatting the
message.  On success the wrapper is copied (`PartialMultiAgentEnv(self.env,
**self.agents)`, i.e. a fresh construction from the current base state)
and the copy is reset, but both results are discarded because `__init__`
ends with `self.env = env`, rebinding the original wrapper. -/
def asSingleAgent {S O A R K V : Type} (w : PMAEnv S O A R K V) (st : PMAState S O R K V) :
    Except ErrKind (SAEnv S O A R K V × PMAState S O R K V) :=
  match w.agent_names with
  | [an] =>
    ebind (pmaInit w.base st.envState w.agents) (fun c =>
      ebind (pmaReset c.1 c.2) (fun _ => .ok (⟨w, an⟩, st)))
  | _ => .error .attributeError

/-- `SingleAgentEnv.step`: step the wrapper with `{name: action}` and
unwrap the four dicts at the single name; the returned done flag is
`done[an] | done["__all__"]`. -/
def saStep {S O A R K V : Type} (sa : SAEnv S O A R K V) (st : PMAState S O R K V) (a : A) :
    Except ErrKind (PMAState S O R K V × (O × Option R × Bool × List (K × V))) :=
  ebind (pmaStep sa.env st [(sa.agentName, a)]) (fun res =>
    match dget res.2.1 sa.agentName, dget res.2.2.1 sa.agentName,
        dget res.2.2.2.1 sa.agentName, dget res.2.2.2.1 "__all__" with
    | some o, some r, some d1, some d2 =>
      .ok (res.1, (o, r, d1 || d2, (dget res.2.2.2.2 sa.agentName).getD []))
    | _, _, _, _ => .error .keyError)

/-- `SingleAgentEnv.reset`: reset the wrapper and unwrap the single name. -/
def saReset {S O A R K V : Type} (sa : SAEnv S O A R K V) (st : PMAState S O R K V) :
    Except ErrKind (PMAState S O R K V × O) :=
  ebind (pmaReset sa.env st) (fun res =>
    match dget res.2 sa.agentName with
    | some o => .ok (res.1, o)
    | none => .error .keyError)

/-! ### The episode runner

`EnvironmentRunner` drives either a classic (gym) environment or a
multi-agent one.  Rewards (Python floats) are modelled as rationals.  The
`max_step` bound is modelled as a natural number; the `while` loop
`while step < max_step and not done` is run as structural recursion on
the remaining step budget.  `_run_once` additionally reports the number
of environment `step` calls performed and the names that received the
final terminal `act` call, which are observations of its control flow. -/
structure GymEnv (S O A K V : Type) : Type where
  reset : S → S × O
  step : S → A → S × (O × Option ℚ × Bool × List (K × V))

/-- The runner's environment: classic single-agent (gym) or multi-agent. -/
inductive RunnerEnv (S O A K V : Type) : Type
  | gym (e : GymEnv S O A K V)
  | multi (e : MAEnv S O A ℚ K V)

/-- The reserved name used by the runner in single-agent mode. -/
def san : String := "single_agent_name"

/-- Argument validation of `_run_once`: exactly one unnamed agent (mapped
to the reserved name) or at least one named agent; otherwise `ValueError`. -/
def normalizeAgents {α : Type} (unnamed : List α) (named : List (String × α)) :
    Except ErrKind (List (String × α)) :=
  match unnamed, named with
  | [u], [] => .ok [(san, u)]
  | [], [] => .error .valueError
  | [], q :: rest => .ok (q :: rest)
  | _ :: _, _ => .error .valueError

/-- `reward_sum[name] += value` on a `defaultdict(float)`. -/
def addTo (m : List (String × ℚ)) (k : String) (v : ℚ) : List (String × ℚ) :=
  if (dget m k).isSome then m.map (fun p => if p.1 = k then (p.1, p.2 + v) else p)
  else m ++ [(k, v)]

/-- The reward-accumulation loop body: every outcome must carry a
non-null reward (else `AssertionError`), which is added to the running
per-name sum. -/
def accumulate {O K V : Type} : List (String × ℚ) → List (String × StepOutcome O ℚ K V) →
    Except ErrKind (List (String × ℚ))
  | acc, [] => .ok acc
  | acc, p :: rest =>
    match p.2.reward with
    | none => .error .assertionError
    | some r => accumulate (addTo acc p.1 r) rest

/-- One environment step inside the runner loop, dispatching on the
environment shape exactly as the `isinstance` check does. -/
def stepEnv {S O A K V : Type} (env : RunnerEnv S O A K V) (s : S)
    (actions : List (String × A)) :
    Except ErrKind (S × List (String × StepOutcome O ℚ K V) × Bool) :=
  match env with
  | .gym e =>
    match dget actions san with
    | none => .error .keyError
    | some a =>
      let r := e.step s a
      .ok (r.1, [(san, ⟨r.2.1, r.2.2.1, r.2.2.2.1, r.2.2.2.2⟩)], r.2.2.2.1)
  | .multi e =>
    let r := e.step s actions
    let fm := from_multiagent_step r.2.1 r.2.2.1 r.2.2.2.1 r.2.2.2.2
    .ok (r.1, fm.1, fm.2)

/-- The `while step < max_step and not done` loop of `_run_once`: select
an action for every outcome-holding name (`KeyError` if no such agent),
step the environment, accumulate rewards, repeat.  Returns the final
state, the final outcomes, the reward sums and the step counter. -/
def runLoop {S O A K V : Type} (env : RunnerEnv S O A K V)
    (agents : List (String × AgentF O A ℚ K V)) :
    Nat → S → List (String × StepOutcome O ℚ K V) → Bool → List (String × ℚ) → Nat →
    Except ErrKind (S × List (String × StepOutcome O ℚ K V) × List (String × ℚ) × Nat)
  | 0, s, ocs, _, acc, steps => .ok (s, ocs, acc, steps)
  | fuel + 1, s, ocs, d, acc, steps =>
    if d then .ok (s, ocs, acc, steps)
    else
      ebind (emapM (fun p =>
          match dget agents p.1 with
          | some ag =>
            (.ok (p.1, ag p.2.observation p.2.reward p.2.done p.2.info) :
              Except ErrKind (String × A))
          | none => .error .keyError) ocs) (fun actions =>
        ebind (stepEnv env s actions) (fun r =>
          ebind (accumulate acc r.2.1) (fun acc' =>
            runLoop env agents fuel r.1 r.2.1 r.2.2 acc' (steps + 1))))

/-- `EnvironmentRunner._run_once`: normalize the agents, reset the
environment into initial outcomes, run the step loop, then give every
currently-active agent one final `act` call whose result is discarded.
Returns (final env state, reward sums, number of env `step` calls, names
that received the final `act` call). -/
def runnerRunOnce {S O A K V : Type} (env : RunnerEnv S O A K V) (maxStep : Nat)
    (unnamed : List (AgentF O A ℚ K V)) (named : List (String × AgentF O A ℚ K V))
    (s : S) : Except ErrKind (S × List (String × ℚ) × Nat × List String) :=
  ebind (normalizeAgents unnamed named) (fun agents =>
    let ir : S × List (String × StepOutcome O ℚ K V) × Bool :=
      match env with
      | .gym e =>
        let r := e.reset s
        (r.1, [(san, ⟨r.2, none, false, []⟩)], false)
      | .multi e =>
        let r := e.reset s
        let fm := from_multiagent_step r.2 ([] : List (String × ℚ)) [] []
        (r.1, fm.1, fm.2)
    ebind (runLoop env agents maxStep ir.1 ir.2.1 ir.2.2 [] 0) (fun res =>
      ebind (emapM (fun p =>
          match dget agents p.1 with
          | some ag =>
            (.ok (ag p.2.observation p.2.reward p.2.done p.2.info) : Except ErrKind A)
          | none => .error .keyError) res.2.1) (fun _ =>
        .ok (res.1, res.2.2.1, res.2.2.2, res.2.1.map Prod.fst))))

/-- `sum_rewards[name] += value` over a plain dict: a name absent from
the accumulator raises `KeyError`. -/
def addAll : List (String × ℚ) → List (String × ℚ) → Except ErrKind (List (String × ℚ))
  | acc, [] => .ok acc
  | acc, p :: rest =>
    if (dget acc p.1).isSome then
      addAll (acc.map (fun q => if q.1 = p.1 then (q.1, q.2 + p.2) else q)) rest
    else .error .keyError

/-- The repetition loop of `EnvironmentRunner.run`. -/
def repLoop {S O A K V : Type} (env : RunnerEnv S O A K V) (maxStep : Nat)
    (unnamed : List (AgentF O A ℚ K V)) (named : List (String × AgentF O A ℚ K V)) :
    Nat → S → List (String × ℚ) → Except ErrKind (List (String × ℚ) × S)
  | 0, s, acc => .ok (acc, s)
  | n + 1, s, acc =>
    ebind (runnerRunOnce env maxStep unnamed named s) (fun res =>
      ebind (addAll acc res.2.1) (fun acc' =>
        repLoop env maxStep unnamed named n res.1 acc'))

/-- `EnvironmentRunner.run`: accumulate per-name reward sums over
`num_repetitions` episodes (keys taken from the named agents, or the
reserved single-agent name), divide by the repetition count (zero
repetitions is a `ZeroDivisionError`), and return a scalar for a gym
environment or the mean mapping otherwise. -/
def runnerRun {S O A K V : Type} (env : RunnerEnv S O A K V) (numReps maxStep : Nat)
    (unnamed : List (AgentF O A ℚ K V)) (named : List (String × AgentF O A ℚ K V))
    (s : S) : Except ErrKind (Sum ℚ (List (String × ℚ)) × S) :=
  let sum0 : List (String × ℚ) :=
    if named.isEmpty then [(san, 0)] else named.map (fun p => (p.1, 0))
  ebind (repLoop env maxStep unnamed named numReps s sum0) (fun res =>
    if numReps = 0 then .error .zeroDivisionError
    else
      let mean := res.1.map (fun p => (p.1, p.2 / (numReps : ℚ)))
      match env with
      | .gym _ =>
        match dget mean san with
        | some v => .ok (.inl v, res.2)
        | none => .error .keyError
      | .multi _ => .ok (.inr mean, res.2))

/-! ### Concrete fixtures used by witnesses -/

/-- A concrete two-participant base environment. -/
def wEnv : MAEnv Nat Nat Nat Nat Nat Nat :=
  ⟨["player_0", "player_1"],
   fun s => s,
   fun s => (s, [("player_0", 10), ("player_1", 11)]),
   fun s _ => (s + 1, ([("player_0", 20), ("player_1", 21)],
                      [("player_0", 1), ("player_1", 2)],
                      [("player_0", true)],
                      []))⟩

/-- A concrete agent always answering action 0. -/
def wAg : AgentF Nat Nat Nat Nat Nat := fun _ _ _ _ => 0

/-- The wrapper over `wEnv` delegating nothing. -/
def wW : PMAEnv Nat Nat Nat Nat Nat Nat := ⟨wEnv, [], ["player_0", "player_1"]⟩

/-- The wrapper over `wEnv` delegating `player_1` to `wAg`. -/
def wWD : PMAEnv Nat Nat Nat Nat Nat Nat := ⟨wEnv, [("player_1", wAg)], ["player_0"]⟩

/-- A wrapper state whose cache holds an outcome for `player_1`. -/
def wStD : PMAState Nat Nat Nat Nat Nat := ⟨0, [("player_1", ⟨11, none, false, []⟩)]⟩

/-- A single-agent adapter view on `wW` at name `player_0`. -/
def wSA : SAEnv Nat Nat Nat Nat Nat Nat := ⟨wW, "player_0"⟩

/-- A concrete gym environment terminating after one step with reward 1. -/
def gEnvTerm : GymEnv Nat Nat Nat Nat Nat :=
  ⟨fun s => (s, 0), fun s _ => (s, (0, some 1, true, []))⟩

/-- A concrete gym environment that never terminates, paying reward 1
each step. -/
def gEnvInf : GymEnv Nat Nat Nat Nat Nat :=
  ⟨fun s => (s, 0), fun s _ => (s + 1, (s, some 1, false, []))⟩

/-- A concrete runner agent. -/
def gAg : AgentF Nat Nat ℚ Nat Nat := fun _ _ _ _ => 0

/-- A concrete one-participant multi-agent environment terminating after
one step with reward 2 for `"a"`. -/
def mEnvTerm : MAEnv Nat Nat Nat ℚ Nat Nat :=
  ⟨["a"],
   fun s => s,
   fun s => (s, [("a", 0)]),
   fun s _ => (s, ([("a", 0)], [("a", 2)], [("a", true), ("__all__", true)], []))⟩

/-! ### Association-list lemmas -/

theorem dget_map {α β : Type} (l : List (String × α)) (f : String → α → β) (k : String) :
    dget (l.map (fun p => (p.1, f p.1 p.2))) k = (dget l k).map (f k) := by
  induction l with
  | nil => rfl
  | cons p rest ih =>
    by_cases h : p.1 = k
    · subst h
      simp [dget]
    · simp [dget, h, ih]

theorem dget_none_of_forall {α : Type} (l : List (String × α)) (k : String)
    (h : ∀ p ∈ l, p.1 ≠ k) : dget l k = none := by
  induction l with
  | nil => rfl
  | cons p rest ih =>
    have hp : p.1 ≠ k := h p (List.mem_cons_self p rest)
    simp only [dget, if_neg hp]
    exact ih (fun q hq => h q (List.mem_cons_of_mem p hq))

theorem dget_append_of_none {α : Type} (m l : List (String × α)) (k : String)
    (h : dget m k = none) : dget (m ++ l) k = dget l k := by
  induction m with
  | nil => rfl
  | cons p rest ih =>
    by_cases hp : p.1 = k
    · simp [dget, hp] at h
    · simp only [dget, if_neg hp] at h
      simp only [List.cons_append, dget, if_neg hp]
      exact ih h

theorem dget_map_overwrite {α : Type} (m : List (String × α)) (k : String) (g : α → α) :
    dget (m.map (fun p => if p.1 = k then (p.1, g p.2) else p)) k = (dget m k).map g := by
  induction m with
  | nil => rfl
  | cons p rest ih =>
    by_cases hp : p.1 = k
    · simp [dget, hp]
    · simp [dget, hp, ih]

theorem dget_map_overwrite_ne {α : Type} (m : List (String × α)) (k n : String) (g : α → α)
    (hnk : n ≠ k) :
    dget (m.map (fun p => if p.1 = k then (p.1, g p.2) else p)) n = dget m n := by
  induction m with
  | nil => rfl
  | cons p rest ih =>
    by_cases hp : p.1 = k
    · have hpn : p.1 ≠ n := by
        rw [hp]
        exact fun hc => hnk hc.symm
      simp only [List.map_cons, if_pos hp, dget, if_neg hpn]
      exact ih
    · by_cases hq : p.1 = n
      · simp only [List.map_cons, if_neg hp, dget, if_pos hq]
      · simp only [List.map_cons, if_neg hp, dget, if_neg hq]
        exact ih

theorem dget_append_left {α : Type} (m l : List (String × α)) (k : String) (v : α)
    (h : dget m k = some v) : dget (m ++ l) k = some v := by
  induction m with
  | nil => simp [dget] at h
  | cons p rest ih =>
    by_cases hp : p.1 = k
    · simp only [dget, if_pos hp] at h
      simp only [List.cons_append, dget, if_pos hp]
      exact h
    · simp only [dget, if_neg hp] at h
      simp only [List.cons_append, dget, if_neg hp]
      exact ih h

theorem dictSet_dget_self {α : Type} (m : List (String × α)) (k : String) (v : α) :
    dget (dictSet m k v) k = some v := by
  unfold dictSet
  by_cases h : (dget m k).isSome
  · rw [if_pos h]
    have := dget_map_overwrite m k (fun _ => v)
    rw [this]
    obtain ⟨x, hx⟩ := Option.isSome_iff_exists.mp h
    rw [hx]
    rfl
  · rw [if_neg h]
    have hnone : dget m k = none := Option.not_isSome_iff_eq_none.mp h
    rw [dget_append_of_none m _ k hnone]
    simp [dget]

theorem dictSet_dget_ne {α : Type} (m : List (String × α)) (k n : String) (v : α)
    (hnk : n ≠ k) : dget (dictSet m k v) n = dget m n := by
  unfold dictSet
  by_cases h : (dget m k).isSome
  · rw [if_pos h]
    exact dget_map_overwrite_ne m k n (fun _ => v) hnk
  · rw [if_neg h]
    cases hm : dget m n with
    | some x => exact dget_append_left m _ n x hm
    | none =>
      rw [dget_append_of_none m _ n hm]
      have hkn : ¬(k = n) := fun hc => hnk hc.symm
      simp [dget, hkn]

theorem memb_iff (l : List String) (k : String) : memb l k = true ↔ k ∈ l := by
  induction l with
  | nil => simp [memb]
  | cons a rest ih =>
    simp only [memb, List.any_cons, Bool.or_eq_true, decide_eq_true_eq, List.mem_cons]
    simp only [memb] at ih
    rw [ih]
    constructor
    · rintro (h | h)
      · exact Or.inl h.symm
      · exact Or.inr h
    · rintro (h | h)
      · exact Or.inl h.symm
      · exact Or.inr h

theorem double_map_fst {α β : Type} (l : List (String × α)) (f : String → α → β)
    (g : String → β → α) (hgf : ∀ n a, g n (f n a) = a) :
    (l.map (fun p => (p.1, f p.1 p.2))).map (fun p => (p.1, g p.1 p.2)) = l := by
  induction l with
  | nil => rfl
  | cons p rest ih =>
    simp only [List.map_cons, ih]
    rw [hgf]

theorem dget_double_map {α β γ : Type} (l : List (String × α)) (f : String → α → β)
    (g : String → β → γ) (k : String) :
    dget ((l.map (fun p => (p.1, f p.1 p.2))).map (fun p => (p.1, g p.1 p.2))) k
      = (dget l k).map (fun a => g k (f k a)) := by
  induction l with
  | nil => rfl
  | cons p rest ih =>
    by_cases hp : p.1 = k
    · subst hp
      simp only [List.map_cons, dget, if_pos rfl]
      rfl
    · simp only [List.map_cons, dget, if_neg hp]
      exact ih

theorem ebind_ok_inv {α β : Type} {x : Except ErrKind α} {f : α → Except ErrKind β}
    {b : β} (h : ebind x f = .ok b) : ∃ a, x = .ok a ∧ f a = .ok b := by
  cases x with
  | error e => exact Except.noConfusion h
  | ok a => exact ⟨a, rfl, h⟩

theorem ebind_ok {α β : Type} {x : Except ErrKind α} {a : α}
    (f : α → Except ErrKind β) (h : x = .ok a) : ebind x f = f a := by
  rw [h]
  rfl

theorem ebind_err {α β : Type} {x : Except ErrKind α} {e : ErrKind}
    (f : α → Except ErrKind β) (h : x = .error e) : ebind x f = .error e := by
  rw [h]
  rfl

/-! ### C1 and C2: the StepOutcome conversions -/

/-- C1: for a multi-agent step shape with non-empty observation dict,
`to_multiagent_step (from_multiagent_step obs reward done info).1
(done.get("__all__", False))` reproduces the observation dict exactly and
the same `"__all__"` flag, and for every observed name a missing reward
comes back as an explicit `None` and a missing info as an explicit `{}`. -/
theorem C1_roundtrip {O R K V : Type} (obs : List (String × O)) (reward : List (String × R))
    (done : List (String × Bool)) (info : List (String × List (K × V)))
    (_hne : obs ≠ []) :
    (roundTripped obs reward done info).1 = obs ∧
    dget (roundTripped obs reward done info).2.2.1 "__all__"
      = some ((dget done "__all__").getD false) ∧
    (∀ n : String, (dget obs n).isSome →
      dget (roundTripped obs reward done info).2.1 n = some (dget reward n) ∧
      dget (roundTripped obs reward done info).2.2.2 n = some ((dget info n).getD [])) := by
  refine ⟨?_, ?_, ?_⟩
  · exact double_map_fst obs
      (fun name o => StepOutcome.mk o (dget reward name)
        ((dget done name).getD ((dget done "__all__").getD false))
        ((dget info name).getD []))
      (fun _ oc => oc.observation) (fun _ _ => rfl)
  · exact dictSet_dget_self _ "__all__" _
  · intro n hn
    obtain ⟨o, ho⟩ := Option.isSome_iff_exists.mp hn
    constructor
    · have h := dget_double_map obs
        (fun name o => StepOutcome.mk o (dget reward name)
          ((dget done name).getD ((dget done "__all__").getD false))
          ((dget info name).getD []))
        (fun _ oc => oc.reward) n
      rw [ho] at h
      exact h
    · have h := dget_double_map obs
        (fun name o => StepOutcome.mk o (dget reward name)
          ((dget done name).getD ((dget done "__all__").getD false))
          ((dget info name).getD []))
        (fun _ oc => oc.info) n
      rw [ho] at h
      exact h

/-- C1 witness at a concrete input with a missing reward and info. -/
theorem C1_roundtrip_witness :
    (roundTripped [("a", (1 : Nat))] ([] : List (String × Nat))
        [("b", true)] ([] : List (String × List (Nat × Nat)))).1 = [("a", 1)] ∧
    dget (roundTripped [("a", (1 : Nat))] ([] : List (String × Nat))
        [("b", true)] ([] : List (String × List (Nat × Nat)))).2.2.1 "__all__" = some false ∧
    dget (roundTripped [("a", (1 : Nat))] ([] : List (String × Nat))
        [("b", true)] ([] : List (String × List (Nat × Nat)))).2.1 "a" = some none ∧
    dget (roundTripped [("a", (1 : Nat))] ([] : List (String × Nat))
        [("b", true)] ([] : List (String × List (Nat × Nat)))).2.2.2 "a" = some [] := by
  have h := C1_roundtrip [("a", (1 : Nat))] ([] : List (String × Nat))
    [("b", true)] ([] : List (String × List (Nat × Nat))) (by decide)
  refine ⟨h.1, by simpa using h.2.1, ?_, ?_⟩
  · simpa using (h.2.2 "a" (by decide)).1
  · simpa using (h.2.2 "a" (by decide)).2

/-- C2: `from_multiagent_step` keeps exactly the keys of `obs`; every name
maps to the outcome built from `reward.get(name, None)`,
`done.get(name, done.get("__all__", False))` and `info.get(name, {})`; the
second component is `done.get("__all__", False)`.  (Side-effect freedom is
inherent to the pure embedding.) -/
theorem C2_from_multiagent_spec {O R K V : Type} (obs : List (String × O))
    (reward : List (String × R)) (done : List (String × Bool))
    (info : List (String × List (K × V))) :
    (from_multiagent_step obs reward done info).2 = (dget done "__all__").getD false ∧
    (from_multiagent_step obs reward done info).1.map Prod.fst = obs.map Prod.fst ∧
    (∀ n : String,
      dget (from_multiagent_step obs reward done info).1 n
        = (dget obs n).map (fun o => StepOutcome.mk o (dget reward n)
            ((dget done n).getD ((dget done "__all__").getD false))
            ((dget info n).getD []))) := by
  refine ⟨rfl, ?_, ?_⟩
  · simp [from_multiagent_step, List.map_map, Function.comp]
  · intro n
    show dget (obs.map (fun p => (p.1, StepOutcome.mk p.2 (dget reward p.1)
        ((dget done p.1).getD ((dget done "__all__").getD false))
        ((dget info p.1).getD [])))) n = _
    have := dget_map obs (fun name o => StepOutcome.mk o (dget reward name)
        ((dget done name).getD ((dget done "__all__").getD false))
        ((dget info name).getD [])) n
    exact this

/-! ### The delegation wrapper: C3, C4, C9, C10 -/

theorem pmaInit_ok_inv {S O A R K V : Type} {env : MAEnv S O A R K V} {s : S}
    {ags : List (String × AgentF O A R K V)} {w : PMAEnv S O A R K V}
    {st : PMAState S O R K V} (h : pmaInit env s ags = .ok (w, st)) :
    w = ⟨env, ags, env.agent_names.filter (fun an => !(memb (ags.map Prod.fst) an))⟩ ∧
    st = ⟨(env.reset (env.copy s)).1, []⟩ := by
  simp only [pmaInit] at h
  by_cases hb : ((ags.map Prod.fst).all (fun n => memb env.agent_names n)) = true
  · rw [if_pos hb] at h
    simp only [Except.ok.injEq, Prod.mk.injEq] at h
    exact ⟨h.1.symm, h.2.symm⟩
  · rw [if_neg hb] at h
    exact Except.noConfusion h

/-- C4: construction raises `ValueError` whenever some delegated name is
absent from the base environment's `agent_names`, and succeeds (no such
error) when every delegated name is known. -/
theorem C4_unknown_rejected {S O A R K V : Type} (env : MAEnv S O A R K V) (s : S)
    (ags : List (String × AgentF O A R K V)) :
    ((¬ ∀ n ∈ ags.map Prod.fst, n ∈ env.agent_names) →
      pmaInit env s ags = .error .valueError) ∧
    ((∀ n ∈ ags.map Prod.fst, n ∈ env.agent_names) →
      ∃ w st, pmaInit env s ags = .ok (w, st)) := by
  constructor
  · intro h
    simp only [pmaInit]
    rw [if_neg]
    intro hall
    exact h (fun n hn => (memb_iff _ _).mp (by simpa using List.all_eq_true.mp hall n hn))
  · intro h
    simp only [pmaInit]
    rw [if_pos (List.all_eq_true.mpr (fun n hn => by
      simpa using (memb_iff _ _).mpr (h n hn)))]
    exact ⟨_, _, rfl⟩

/-- C4 witness: delegating the unknown name `ghost` is rejected with
`ValueError`; delegating the known `player_1` succeeds. -/
theorem C4_unknown_rejected_witness :
    pmaInit wEnv 0 [("ghost", wAg)] = .error .valueError ∧
    ∃ w st, pmaInit wEnv 0 [("player_1", wAg)] = .ok (w, st) :=
  ⟨(C4_unknown_rejected wEnv 0 [("ghost", wAg)]).1 (by decide),
   (C4_unknown_rejected wEnv 0 [("player_1", wAg)]).2 (by decide)⟩

/-- C9 counterexample: constructing the wrapper around `wEnv` delegating
`player_1` succeeds with an empty `_agents_outcome` cache, although the
construction-time reset did produce observation 11 for `player_1` — the
claim that the cache holds every delegated name's initial observation
after construction is false. -/
theorem C9_counterexample :
    pmaInit wEnv 0 [("player_1", wAg)]
      = .ok (⟨wEnv, [("player_1", wAg)], ["player_0"]⟩, ⟨0, []⟩) ∧
    dget (wEnv.reset (wEnv.copy 0)).2 "player_1" = some 11 := ⟨rfl, rfl⟩

/-- C9 (amended): construction copies the base environment and agents and
resets the copied environment exactly once — the post-reset state is
kept, the returned observations are discarded — and leaves the cached
`_agents_outcome` mapping empty; it is first populated by an explicit
`reset()` call. -/
theorem C9_construction_state {S O A R K V : Type} (env : MAEnv S O A R K V) (s : S)
    (ags : List (String × AgentF O A R K V)) (w : PMAEnv S O A R K V)
    (st : PMAState S O R K V) (h : pmaInit env s ags = .ok (w, st)) :
    st.envState = (env.reset (env.copy s)).1 ∧ st.agentsOutcome = [] ∧
    w.base = env ∧ w.agents = ags := by
  obtain ⟨hw, hst⟩ := pmaInit_ok_inv h
  subst hw
  subst hst
  exact ⟨rfl, rfl, rfl, rfl⟩

/-- C9 witness at the concrete construction. -/
theorem C9_construction_state_witness :
    (⟨0, []⟩ : PMAState Nat Nat Nat Nat Nat).envState = (wEnv.reset (wEnv.copy 0)).1 ∧
    (⟨0, []⟩ : PMAState Nat Nat Nat Nat Nat).agentsOutcome = [] ∧
    wWD.base = wEnv ∧ wWD.agents = [("player_1", wAg)] :=
  C9_construction_state wEnv 0 [("player_1", wAg)] wWD ⟨0, []⟩ rfl

theorem dget_restrict_none {α β : Type} (l : List (String × α)) (f : String × α → β)
    (deleg : List String) (n : String) (hn : n ∈ deleg) :
    dget ((l.filter (fun p => !(memb deleg p.1))).map (fun p => (p.1, f p))) n = none := by
  apply dget_none_of_forall
  intro q hq
  obtain ⟨p, hp, hpq⟩ := List.mem_map.mp hq
  obtain ⟨hpl, hpf⟩ := List.mem_filter.mp hp
  subst hpq
  intro hc
  have hc' : p.1 = n := hc
  have hm : memb deleg p.1 = true := (memb_iff _ _).mpr (by rw [hc']; exact hn)
  rw [hm] at hpf
  simp at hpf

/-- C3: a wrapper built by delegating `ags` exposes exactly the base
`agent_names` minus the delegated names in base order, and the mappings
returned by its `reset` and `step` never carry a delegated name as a key
(`step`'s done dict additionally carries only the `"__all__"` sentinel). -/
theorem C3_delegation_remainder {S O A R K V : Type} (env : MAEnv S O A R K V) (s0 : S)
    (ags : List (String × AgentF O A R K V)) (w : PMAEnv S O A R K V)
    (st0 : PMAState S O R K V) (hinit : pmaInit env s0 ags = .ok (w, st0)) :
    w.agent_names = env.agent_names.filter (fun an => !(memb (ags.map Prod.fst) an)) ∧
    (∀ st st' out, pmaReset w st = .ok (st', out) →
      ∀ n ∈ ags.map Prod.fst, dget out n = none) ∧
    (∀ st acts st' obD rwD dnD infD,
      pmaStep w st acts = .ok (st', (obD, rwD, dnD, infD)) →
      ∀ n ∈ ags.map Prod.fst,
        dget obD n = none ∧ dget rwD n = none ∧ dget infD n = none ∧
        (n ≠ "__all__" → dget dnD n = none)) := by
  obtain ⟨hw, -⟩ := pmaInit_ok_inv hinit
  subst hw
  refine ⟨rfl, ?_, ?_⟩
  · intro st st' out hr n hn
    simp only [pmaReset] at hr
    obtain ⟨cache, -, hres⟩ := ebind_ok_inv hr
    simp only [Except.ok.injEq, Prod.mk.injEq] at hres
    rw [← hres.2]
    exact dget_restrict_none _ _ _ n hn
  · intro st acts st' obD rwD dnD infD hs n hn
    simp only [pmaStep] at hs
    obtain ⟨full, -, hs1⟩ := ebind_ok_inv hs
    obtain ⟨cache, -, hs2⟩ := ebind_ok_inv hs1
    simp only [to_multiagent_step, Except.ok.injEq, Prod.mk.injEq] at hs2
    obtain ⟨-, hob, hrw, hdn, hinf⟩ := hs2
    refine ⟨?_, ?_, ?_, ?_⟩
    · rw [← hob]
      exact dget_restrict_none _ _ _ n hn
    · rw [← hrw]
      exact dget_restrict_none _ _ _ n hn
    · rw [← hinf]
      exact dget_restrict_none _ _ _ n hn
    · intro hnall
      rw [← hdn, dictSet_dget_ne _ _ _ _ hnall]
      exact dget_restrict_none _ _ _ n hn

/-- C3 witness: the two-player environment with `player_1` delegated. -/
theorem C3_delegation_remainder_witness :
    wWD.agent_names = ["player_0"] ∧
    (∀ st st' out, pmaReset wWD st = .ok (st', out) → dget out "player_1" = none) ∧
    (∀ st acts st' obD rwD dnD infD,
      pmaStep wWD st acts = .ok (st', (obD, rwD, dnD, infD)) →
      dget obD "player_1" = none ∧ dget dnD "player_1" = none) := by
  have h := C3_delegation_remainder wEnv 0 [("player_1", wAg)] wWD ⟨0, []⟩ rfl
  refine ⟨?_, ?_, ?_⟩
  · rw [h.1]
    rfl
  · intro st st' out hr
    exact h.2.1 st st' out hr "player_1" (by simp)
  · intro st acts st' obD rwD dnD infD hs
    have hh := h.2.2 st acts st' obD rwD dnD infD hs "player_1" (by simp)
    exact ⟨hh.1, hh.2.2.2 (by decide)⟩

theorem dictUpdate_dget_not_mem {α : Type} (upd : List (String × α)) :
    ∀ (m : List (String × α)) (k : String),
      (∀ q ∈ upd, q.1 ≠ k) → dget (dictUpdate m upd) k = dget m k := by
  induction upd with
  | nil =>
    intro m k _
    rfl
  | cons q rest ih =>
    intro m k h
    simp only [dictUpdate]
    rw [ih (dictSet m q.1 q.2) k (fun p hp => h p (List.mem_cons_of_mem q hp))]
    exact dictSet_dget_ne m q.1 k q.2 (fun hc => h q (List.mem_cons_self q rest) hc.symm)

theorem dictUpdate_dget_mem {α : Type} (upd : List (String × α)) :
    ∀ (m : List (String × α)) (k : String) (v : α),
      (upd.map Prod.fst).Nodup → dget upd k = some v →
      dget (dictUpdate m upd) k = some v := by
  induction upd with
  | nil =>
    intro m k v _ hk
    simp [dget] at hk
  | cons q rest ih =>
    intro m k v hnd hk
    simp only [List.map_cons, List.nodup_cons] at hnd
    simp only [dictUpdate]
    by_cases hq : q.1 = k
    · subst hq
      simp only [dget, if_pos rfl] at hk
      injection hk with hv
      have hrest : ∀ p ∈ rest, p.1 ≠ q.1 := fun p hp hc =>
        hnd.1 (hc ▸ List.mem_map_of_mem Prod.fst hp)
      rw [dictUpdate_dget_not_mem rest (dictSet m q.1 q.2) q.1 hrest]
      rw [dictSet_dget_self m q.1 q.2, hv]
    · simp only [dget, if_neg hq] at hk
      exact ih (dictSet m q.1 q.2) k v hnd.2 hk

/-- C10: in the wrapper's `step`, caller-supplied actions take precedence
for every name in the caller's action dict — including delegated names,
whose agent-computed action is discarded on key collision. -/
theorem C10_caller_precedence {S O A R K V : Type} (w : PMAEnv S O A R K V)
    (st : PMAState S O R K V) (acts : List (String × A)) (full : List (String × A))
    (hfull : fullActionDict w st acts = .ok full)
    (hnd : (acts.map Prod.fst).Nodup) (n : String) (a : A)
    (ha : dget acts n = some a) :
    dget full n = some a := by
  simp only [fullActionDict] at hfull
  obtain ⟨delegActs, -, hres⟩ := ebind_ok_inv hfull
  simp only [Except.ok.injEq] at hres
  rw [← hres]
  exact dictUpdate_dget_mem acts delegActs n a hnd ha

/-- C10 witness: `player_1` is delegated and cached, yet the caller's
action 99 for `player_1` is the one in the full action dict. -/
theorem C10_caller_precedence_witness :
    fullActionDict wWD wStD [("player_0", 7), ("player_1", 99)]
      = .ok [("player_1", 99), ("player_0", 7)] ∧
    dget [("player_1", (99 : Nat)), ("player_0", 7)] "player_1" = some 99 :=
  ⟨rfl, C10_caller_precedence wWD wStD [("player_0", 7), ("player_1", 99)]
    [("player_1", 99), ("player_0", 7)] rfl (by decide) "player_1" 99 rfl⟩

/-! ### The single-agent adapter: C7 and C8 -/

/-- C7: the single-agent adapter's returned done flag is the logical OR
of the wrapped agent's own flag and the overall `"__all__"` flag from the
wrapper's step result. -/
theorem C7_done_or {S O A R K V : Type} (sa : SAEnv S O A R K V)
    (st : PMAState S O R K V) (a : A) (st2 : PMAState S O R K V)
    (obD : List (String × O)) (rwD : List (String × Option R)) (dnD : List (String × Bool))
    (infD : List (String × List (K × V))) (o : O) (r : Option R) (d1 d2 : Bool)
    (hstep : pmaStep sa.env st [(sa.agentName, a)] = .ok (st2, (obD, rwD, dnD, infD)))
    (ho : dget obD sa.agentName = some o) (hr : dget rwD sa.agentName = some r)
    (hd1 : dget dnD sa.agentName = some d1) (hd2 : dget dnD "__all__" = some d2) :
    saStep sa st a = .ok (st2, (o, r, d1 || d2, (dget infD sa.agentName).getD [])) := by
  simp only [saStep]
  rw [ebind_ok _ hstep]
  simp only [ho, hr, hd1, hd2]

/-- C7 witness: `player_0`'s own flag is true while `"__all__"` is false,
and the adapter reports done = true. -/
theorem C7_done_or_witness :
    saStep wSA ⟨0, []⟩ 5 = .ok (⟨1, []⟩, (20, some 1, true, [])) :=
  C7_done_or wSA ⟨0, []⟩ 5 ⟨1, []⟩
    [("player_0", 20), ("player_1", 21)]
    [("player_0", some 1), ("player_1", some 2)]
    [("player_0", true), ("player_1", false), ("__all__", false)]
    [("player_0", []), ("player_1", [])]
    20 (some 1) true false rfl rfl rfl rfl rfl

/-- C8 (code bug): narrowing a wrapper whose remaining participant count
differs from one fails at narrowing time, but with `AttributeError`
rather than the assertion-class error the spec states, because the
assert's message expression reads the never-defined `self.agent_names`. -/
theorem C8_narrowing_error {S O A R K V : Type} (w : PMAEnv S O A R K V)
    (st : PMAState S O R K V) (h : w.agent_names.length ≠ 1) :
    asSingleAgent w st = .error .attributeError := by
  obtain ⟨base, ags, anames⟩ := w
  cases anames with
  | nil => rfl
  | cons a t =>
    cases t with
    | nil => exact absurd rfl h
    | cons b t2 => rfl

/-- C8 witness: the undelegated two-player wrapper has 2 ≠ 1 remaining
names and narrowing raises `AttributeError`. -/
theorem C8_narrowing_error_witness :
    wW.agent_names.length ≠ 1 ∧ asSingleAgent wW ⟨0, []⟩ = .error .attributeError :=
  ⟨by decide, C8_narrowing_error wW ⟨0, []⟩ (by decide)⟩

/-! ### The episode runner: C5 and C6 -/

theorem addTo_dget (m : List (String × ℚ)) (k : String) (v : ℚ) :
    (dget (addTo m k v) k).getD 0 = (dget m k).getD 0 + v := by
  unfold addTo
  by_cases h : (dget m k).isSome
  · rw [if_pos h]
    rw [show dget (m.map (fun p => if p.1 = k then (p.1, p.2 + v) else p)) k
        = (dget m k).map (fun x => x + v) from dget_map_overwrite m k (fun x => x + v)]
    obtain ⟨x, hx⟩ := Option.isSome_iff_exists.mp h
    rw [hx]
    rfl
  · rw [if_neg h]
    have hnone : dget m k = none := Option.not_isSome_iff_eq_none.mp h
    rw [dget_append_of_none m _ k hnone, hnone]
    simp [dget]

/-- On a gym environment that always answers done = false and reward `c`,
the runner loop consumes its whole step budget, keeps a single-name
outcome dict, and adds `c` to the reserved name's sum once per step. -/
theorem runLoop_gym_nodone {S O A K V : Type} (e : GymEnv S O A K V)
    (ag : AgentF O A ℚ K V) (c : ℚ)
    (hstep : ∀ s a, ∃ s' o i, e.step s a = (s', (o, some c, false, i))) :
    ∀ (fuel : Nat) (s : S) (oc : StepOutcome O ℚ K V) (acc : List (String × ℚ)) (steps : Nat),
      ∃ s' oc' acc',
        runLoop (.gym e) [(san, ag)] fuel s [(san, oc)] false acc steps
          = .ok (s', [(san, oc')], acc', steps + fuel) ∧
        (dget acc' san).getD 0 = (dget acc san).getD 0 + (fuel : ℚ) * c := by
  intro fuel
  induction fuel with
  | zero =>
    intro s oc acc steps
    refine ⟨s, oc, acc, by simp [runLoop], ?_⟩
    push_cast
    ring
  | succ fuel ih =>
    intro s oc acc steps
    obtain ⟨s1, o1, i1, hs1⟩ := hstep s (ag oc.observation oc.reward oc.done oc.info)
    obtain ⟨s', oc', acc', hloop, hacc⟩ :=
      ih s1 ⟨o1, some c, false, i1⟩ (addTo acc san c) (steps + 1)
    refine ⟨s', oc', acc', ?_, ?_⟩
    · have h1 : runLoop (.gym e) [(san, ag)] (fuel + 1) s [(san, oc)] false acc steps
          = ebind (stepEnv (.gym e) s
              [(san, ag oc.observation oc.reward oc.done oc.info)]) (fun r =>
            ebind (accumulate acc r.2.1) (fun acc2 =>
              runLoop (.gym e) [(san, ag)] fuel r.1 r.2.1 r.2.2 acc2 (steps + 1))) := rfl
      have h2 : stepEnv (.gym e) s [(san, ag oc.observation oc.reward oc.done oc.info)]
          = .ok ((e.step s (ag oc.observation oc.reward oc.done oc.info)).1,
              [(san, ⟨(e.step s (ag oc.observation oc.reward oc.done oc.info)).2.1,
                (e.step s (ag oc.observation oc.reward oc.done oc.info)).2.2.1,
                (e.step s (ag oc.observation oc.reward oc.done oc.info)).2.2.2.1,
                (e.step s (ag oc.observation oc.reward oc.done oc.info)).2.2.2.2⟩)],
              (e.step s (ag oc.observation oc.reward oc.done oc.info)).2.2.2.1) := rfl
      rw [hs1] at h2
      rw [h1, h2]
      show runLoop (.gym e) [(san, ag)] fuel s1 [(san, ⟨o1, some c, false, i1⟩)] false
          (addTo acc san c) (steps + 1) = .ok (s', [(san, oc')], acc', steps + (fuel + 1))
      rw [hloop]
      have harith : steps + 1 + fuel = steps + (fuel + 1) := by omega
      rw [harith]
    · rw [hacc, addTo_dget]
      push_cast
      ring

/-- C6: with step budget `m` on a gym environment that never reports
termination (constant reward `c`), one episode performs exactly `m`
environment step calls, then issues exactly one final terminal `act` call
to the single active agent, whose reward is not accumulated: the episode
total is exactly `m * c`. -/
theorem C6_step_limit {S O A K V : Type} (e : GymEnv S O A K V) (ag : AgentF O A ℚ K V)
    (c : ℚ) (m : Nat) (s0 : S)
    (hstep : ∀ s a, ∃ s' o i, e.step s a = (s', (o, some c, false, i))) :
    ∃ s' acc, runnerRunOnce (.gym e) m [ag] [] s0 = .ok (s', acc, m, [san]) ∧
      (dget acc san).getD 0 = (m : ℚ) * c := by
  obtain ⟨s', oc', acc', hloop, hacc⟩ :=
    runLoop_gym_nodone e ag c hstep m (e.reset s0).1 ⟨(e.reset s0).2, none, false, []⟩ [] 0
  refine ⟨s', acc', ?_, ?_⟩
  · have h1 : runnerRunOnce (.gym e) m [ag] [] s0
        = ebind (runLoop (.gym e) [(san, ag)] m (e.reset s0).1
            [(san, ⟨(e.reset s0).2, none, false, []⟩)] false [] 0) (fun res =>
          ebind (emapM (fun p =>
              match dget [(san, ag)] p.1 with
              | some agn =>
                (.ok (agn p.2.observation p.2.reward p.2.done p.2.info) : Except ErrKind A)
              | none => .error .keyError) res.2.1) (fun _ =>
            .ok (res.1, res.2.2.1, res.2.2.2, res.2.1.map Prod.fst))) := rfl
    rw [h1, hloop]
    have hz : 0 + m = m := Nat.zero_add m
    rw [hz]
    rfl
  · rw [hacc]
    simp [dget]

/-- C6 witness: three steps on the non-terminating `gEnvInf`. -/
theorem C6_step_limit_witness :
    ∃ s' acc, runnerRunOnce (.gym gEnvInf) 3 [gAg] [] 0 = .ok (s', acc, 3, [san]) ∧
      (dget acc san).getD 0 = ((3 : Nat) : ℚ) * 1 :=
  C6_step_limit gEnvInf gAg 1 3 0 (fun s _ => ⟨s + 1, s, [], rfl⟩)

theorem addAll_single (c v : ℚ) :
    addAll [(san, c)] [(san, v)] = .ok [(san, c + v)] := rfl

theorem addAll_cons {p0 : String × ℚ} (rws : List (String × ℚ)) :
    ∀ (acc l : List (String × ℚ)), (∀ q ∈ rws, q.1 ≠ p0.1) →
      addAll acc rws = .ok l → addAll (p0 :: acc) rws = .ok (p0 :: l) := by
  induction rws with
  | nil =>
    intro acc l _ h
    simp only [addAll, Except.ok.injEq] at h
    subst h
    rfl
  | cons q rest ih =>
    intro acc l hq h
    have hq1 : q.1 ≠ p0.1 := hq q (List.mem_cons_self q rest)
    simp only [addAll] at h ⊢
    by_cases hs : (dget acc q.1).isSome
    · rw [if_pos hs] at h
      have hs' : (dget (p0 :: acc) q.1).isSome = true := by
        simp only [dget, if_neg (show ¬ p0.1 = q.1 from fun hc => hq1 hc.symm)]
        exact hs
      rw [if_pos hs']
      have hmap : (p0 :: acc).map (fun q' => if q'.1 = q.1 then (q'.1, q'.2 + q.2) else q')
          = p0 :: acc.map (fun q' => if q'.1 = q.1 then (q'.1, q'.2 + q.2) else q') := by
        simp only [List.map_cons, if_neg (show ¬ p0.1 = q.1 from fun hc => hq1 hc.symm)]
      rw [hmap]
      exact ih _ _ (fun q' hq' => hq q' (List.mem_cons_of_mem q hq')) h
    · rw [if_neg hs] at h
      exact Except.noConfusion h

theorem map_overwrite_id {α : Type} (l : List (String × α)) (k : String)
    (g : String × α → String × α) (h : ∀ p ∈ l, p.1 ≠ k) :
    l.map (fun p => if p.1 = k then g p else p) = l := by
  induction l with
  | nil => rfl
  | cons p rest ih =>
    simp only [List.map_cons, if_neg (h p (List.mem_cons_self p rest))]
    rw [ih (fun q hq => h q (List.mem_cons_of_mem p hq))]

theorem map_addval_id (l : List (String × ℚ)) (k : String) (v : ℚ)
    (h : ∀ p ∈ l, p.1 ≠ k) :
    l.map (fun p => if p.1 = k then (p.1, p.2 + v) else p) = l := by
  induction l with
  | nil => rfl
  | cons p rest ih =>
    simp only [List.map_cons, if_neg (h p (List.mem_cons_self p rest))]
    rw [ih (fun q hq => h q (List.mem_cons_of_mem p hq))]

theorem addAll_map {β : Type} (l : List (String × β)) :
    ∀ (f g : String → ℚ), (l.map Prod.fst).Nodup →
      addAll (l.map (fun p => (p.1, f p.1))) (l.map (fun p => (p.1, g p.1)))
        = .ok (l.map (fun p => (p.1, f p.1 + g p.1))) := by
  induction l with
  | nil =>
    intro f g _
    rfl
  | cons q rest ih =>
    intro f g hnd
    simp only [List.map_cons, List.nodup_cons] at hnd
    have hkeysf : ∀ p ∈ rest.map (fun p => (p.1, f p.1)), p.1 ≠ q.1 := by
      intro p hp hc
      obtain ⟨x, hx, hxp⟩ := List.mem_map.mp hp
      have hx1 : p.1 = x.1 := by
        rw [← hxp]
      exact hnd.1 (by
        rw [← hc, hx1]
        exact List.mem_map_of_mem Prod.fst hx)
    have hkeysg : ∀ p ∈ rest.map (fun p => (p.1, g p.1)), p.1 ≠ q.1 := by
      intro p hp hc
      obtain ⟨x, hx, hxp⟩ := List.mem_map.mp hp
      have hx1 : p.1 = x.1 := by
        rw [← hxp]
      exact hnd.1 (by
        rw [← hc, hx1]
        exact List.mem_map_of_mem Prod.fst hx)
    have hs : (dget ((q.1, f q.1) :: rest.map (fun p => (p.1, f p.1))) q.1).isSome = true := by
      simp [dget]
    show addAll ((q.1, f q.1) :: rest.map (fun p => (p.1, f p.1)))
          ((q.1, g q.1) :: rest.map (fun p => (p.1, g p.1)))
        = .ok ((q.1, f q.1 + g q.1) :: rest.map (fun p => (p.1, f p.1 + g p.1)))
    have hstep : addAll ((q.1, f q.1) :: rest.map (fun p => (p.1, f p.1)))
          ((q.1, g q.1) :: rest.map (fun p => (p.1, g p.1)))
        = addAll (((q.1, f q.1) :: rest.map (fun p => (p.1, f p.1))).map
            (fun p => if p.1 = q.1 then (p.1, p.2 + g q.1) else p))
          (rest.map (fun p => (p.1, g p.1))) := by
      show (if (dget ((q.1, f q.1) :: rest.map (fun p => (p.1, f p.1))) q.1).isSome then
          addAll (((q.1, f q.1) :: rest.map (fun p => (p.1, f p.1))).map
            (fun p => if p.1 = q.1 then (p.1, p.2 + g q.1) else p))
          (rest.map (fun p => (p.1, g p.1)))
        else .error .keyError) = _
      rw [if_pos hs]
    have hhead : ((q.1, f q.1) :: (rest.map (fun p => (p.1, f p.1)))).map
          (fun p => if p.1 = q.1 then (p.1, p.2 + g q.1) else p)
        = (if (q.1 : String) = q.1 then (q.1, f q.1 + g q.1) else (q.1, f q.1)) ::
          (rest.map (fun p => (p.1, f p.1))).map
            (fun p => if p.1 = q.1 then (p.1, p.2 + g q.1) else p) := rfl
    have hmapped : ((q.1, f q.1) :: rest.map (fun p => (p.1, f p.1))).map
          (fun p => if p.1 = q.1 then (p.1, p.2 + g q.1) else p)
        = (q.1, f q.1 + g q.1) :: rest.map (fun p => (p.1, f p.1)) := by
      rw [hhead, if_pos rfl,
        map_addval_id (rest.map (fun p => (p.1, f p.1))) q.1 (g q.1) hkeysf]
    rw [hstep, hmapped]
    exact addAll_cons _ _ _ hkeysg (ih f g hnd.2)

/-- A deterministic single-agent episode repeated `j` times adds `j * r`
to the accumulator entry of the reserved name. -/
theorem repLoop_run_gym {S O A K V : Type} (env : RunnerEnv S O A K V) (maxStep : Nat)
    (unnamed : List (AgentF O A ℚ K V)) (r : ℚ)
    (hrun : ∀ s : S, ∃ s2 n fa, runnerRunOnce env maxStep unnamed [] s
        = .ok (s2, [(san, r)], n, fa)) :
    ∀ (j : Nat) (s : S) (c : ℚ), ∃ s',
      repLoop env maxStep unnamed [] j s [(san, c)] = .ok ([(san, c + (j : ℚ) * r)], s') := by
  intro j
  induction j with
  | zero =>
    intro s c
    refine ⟨s, ?_⟩
    have hc : c + ((0 : ℕ) : ℚ) * r = c := by
      push_cast
      ring
    rw [hc]
    rfl
  | succ j ihj =>
    intro s c
    obtain ⟨s2, n, fa, hr1⟩ := hrun s
    obtain ⟨s', hrec⟩ := ihj s2 (c + r)
    refine ⟨s', ?_⟩
    have h1 : repLoop env maxStep unnamed [] (j + 1) s [(san, c)]
        = ebind (runnerRunOnce env maxStep unnamed [] s) (fun res =>
            ebind (addAll [(san, c)] res.2.1) (fun acc' =>
              repLoop env maxStep unnamed [] j res.1 acc')) := rfl
    rw [h1, hr1]
    show ebind (addAll [(san, c)] [(san, r)])
        (fun acc' => repLoop env maxStep unnamed [] j s2 acc')
      = .ok ([(san, c + ((j + 1 : ℕ) : ℚ) * r)], s')
    rw [addAll_single]
    show repLoop env maxStep unnamed [] j s2 [(san, c + r)]
      = .ok ([(san, c + ((j + 1 : ℕ) : ℚ) * r)], s')
    rw [hrec]
    have harith : c + r + (j : ℚ) * r = c + ((j + 1 : ℕ) : ℚ) * r := by
      push_cast
      ring
    rw [harith]

/-- A deterministic multi-agent episode repeated `j` times adds
`j * rf name` to every named entry of the accumulator. -/
theorem repLoop_run_multi {S O A K V : Type} (me : MAEnv S O A ℚ K V) (maxStep : Nat)
    (named : List (String × AgentF O A ℚ K V)) (rf : String → ℚ)
    (hnd : (named.map Prod.fst).Nodup)
    (hrun : ∀ s : S, ∃ s2 n fa, runnerRunOnce (.multi me) maxStep [] named s
        = .ok (s2, named.map (fun p => (p.1, rf p.1)), n, fa)) :
    ∀ (j : Nat) (s : S) (cf : String → ℚ), ∃ s',
      repLoop (.multi me) maxStep [] named j s (named.map (fun p => (p.1, cf p.1)))
        = .ok (named.map (fun p => (p.1, cf p.1 + (j : ℚ) * rf p.1)), s') := by
  intro j
  induction j with
  | zero =>
    intro s cf
    refine ⟨s, ?_⟩
    have hc : (fun p : String × AgentF O A ℚ K V =>
          (p.1, cf p.1 + ((0 : ℕ) : ℚ) * rf p.1))
        = fun p => (p.1, cf p.1) := by
      funext p
      simp
    rw [hc]
    rfl
  | succ j ihj =>
    intro s cf
    obtain ⟨s2, n, fa, hr1⟩ := hrun s
    obtain ⟨s', hrec⟩ := ihj s2 (fun nm => cf nm + rf nm)
    refine ⟨s', ?_⟩
    have h1 : repLoop (.multi me) maxStep [] named (j + 1) s
          (named.map (fun p => (p.1, cf p.1)))
        = ebind (runnerRunOnce (.multi me) maxStep [] named s) (fun res =>
            ebind (addAll (named.map (fun p => (p.1, cf p.1))) res.2.1) (fun acc' =>
              repLoop (.multi me) maxStep [] named j res.1 acc')) := rfl
    rw [h1, hr1]
    show ebind (addAll (named.map (fun p => (p.1, cf p.1)))
          (named.map (fun p => (p.1, rf p.1))))
        (fun acc' => repLoop (.multi me) maxStep [] named j s2 acc')
      = .ok (named.map (fun p => (p.1, cf p.1 + ((j + 1 : ℕ) : ℚ) * rf p.1)), s')
    rw [addAll_map named cf rf hnd]
    show repLoop (.multi me) maxStep [] named j s2
          (named.map (fun p => (p.1, cf p.1 + rf p.1)))
      = .ok (named.map (fun p => (p.1, cf p.1 + ((j + 1 : ℕ) : ℚ) * rf p.1)), s')
    rw [hrec]
    have harith : (fun p : String × AgentF O A ℚ K V =>
          (p.1, cf p.1 + rf p.1 + (j : ℚ) * rf p.1))
        = fun p => (p.1, cf p.1 + ((j + 1 : ℕ) : ℚ) * rf p.1) := by
      funext p
      have : cf p.1 + rf p.1 + (j : ℚ) * rf p.1
          = cf p.1 + ((j + 1 : ℕ) : ℚ) * rf p.1 := by
        push_cast
        ring
      rw [this]
    rw [harith]

/-- C5: `run` sums the per-participant episode rewards over `k ≥ 1`
repetitions and divides by `k`; on a gym environment with a deterministic
episode reward `r` it returns the scalar `r` exactly, and on a
multi-agent environment with deterministic per-name episode rewards
`rf name` it returns the mapping `name ↦ rf name` exactly. -/
theorem C5_reward_averaging {S O A K V : Type} (e : GymEnv S O A K V)
    (me : MAEnv S O A ℚ K V) (ag : AgentF O A ℚ K V)
    (named : List (String × AgentF O A ℚ K V)) (k maxStep : Nat) (r : ℚ)
    (rf : String → ℚ) (s0 : S) :
    (1 ≤ k →
      (∀ s : S, ∃ s2 n fa, runnerRunOnce (.gym e) maxStep [ag] [] s
          = .ok (s2, [(san, r)], n, fa)) →
      ∃ sEnd, runnerRun (.gym e) k maxStep [ag] [] s0 = .ok (.inl r, sEnd)) ∧
    (1 ≤ k → named ≠ [] → (named.map Prod.fst).Nodup →
      (∀ s : S, ∃ s2 n fa, runnerRunOnce (.multi me) maxStep [] named s
          = .ok (s2, named.map (fun p => (p.1, rf p.1)), n, fa)) →
      ∃ sEnd, runnerRun (.multi me) k maxStep [] named s0
          = .ok (.inr (named.map (fun p => (p.1, rf p.1))), sEnd)) := by
  constructor
  · intro hk hrun
    obtain ⟨s', hrep⟩ := repLoop_run_gym (.gym e) maxStep [ag] r hrun k s0 0
    refine ⟨s', ?_⟩
    have hk0 : ¬(k = 0) := by omega
    have h1 : runnerRun (.gym e) k maxStep [ag] [] s0
        = ebind (repLoop (.gym e) maxStep [ag] [] k s0 [(san, 0)]) (fun res =>
            if k = 0 then .error .zeroDivisionError
            else
              match dget (res.1.map (fun p => (p.1, p.2 / (k : ℚ)))) san with
              | some v => .ok (.inl v, res.2)
              | none => .error .keyError) := rfl
    rw [h1, hrep]
    show (if k = 0 then (.error .zeroDivisionError : Except ErrKind (Sum ℚ (List (String × ℚ)) × S))
          else
            match dget (([(san, 0 + (k : ℚ) * r)]).map (fun p => (p.1, p.2 / (k : ℚ)))) san with
            | some v => .ok (.inl v, s')
            | none => .error .keyError)
        = .ok (.inl r, s')
    rw [if_neg hk0]
    show (.ok (.inl ((0 + (k : ℚ) * r) / (k : ℚ)), s')
        : Except ErrKind (Sum ℚ (List (String × ℚ)) × S)) = .ok (.inl r, s')
    have hdiv : (0 + (k : ℚ) * r) / (k : ℚ) = r := by
      rw [zero_add]
      exact mul_div_cancel_left₀ r (Nat.cast_ne_zero.mpr hk0)
    rw [hdiv]
  · intro hk hne hnd hrun
    obtain ⟨s', hrep⟩ := repLoop_run_multi me maxStep named rf hnd hrun k s0 (fun _ => 0)
    refine ⟨s', ?_⟩
    have hk0 : ¬(k = 0) := by omega
    have hie : named.isEmpty = false := by
      cases named with
      | nil => exact absurd rfl hne
      | cons a t => rfl
    have h1 : runnerRun (.multi me) k maxStep [] named s0
        = ebind (repLoop (.multi me) maxStep [] named k s0
            (named.map (fun p => (p.1, (0 : ℚ))))) (fun res =>
            if k = 0 then .error .zeroDivisionError
            else .ok (.inr (res.1.map (fun p => (p.1, p.2 / (k : ℚ)))), res.2)) := by
      simp only [runnerRun, hie, Bool.false_eq_true, if_false]
    rw [h1, hrep]
    show (if k = 0 then (.error .zeroDivisionError : Except ErrKind (Sum ℚ (List (String × ℚ)) × S))
          else .ok (.inr ((named.map (fun p => (p.1, (0 : ℚ) + (k : ℚ) * rf p.1))).map
              (fun p => (p.1, p.2 / (k : ℚ)))), s'))
        = .ok (.inr (named.map (fun p => (p.1, rf p.1))), s')
    rw [if_neg hk0]
    rw [List.map_map]
    have hfun : ((fun p : String × ℚ => (p.1, p.2 / (k : ℚ)))
          ∘ (fun p : String × AgentF O A ℚ K V => (p.1, (0 : ℚ) + (k : ℚ) * rf p.1)))
        = fun p : String × AgentF O A ℚ K V => (p.1, rf p.1) := by
      funext p
      show (p.1, ((0 : ℚ) + (k : ℚ) * rf p.1) / (k : ℚ)) = (p.1, rf p.1)
      rw [zero_add, mul_div_cancel_left₀ _ (Nat.cast_ne_zero.mpr hk0)]
    rw [hfun]

/-- C5 witness: three repetitions on the deterministic one-step
environments give exactly the per-episode reward back. -/
theorem C5_reward_averaging_witness :
    (∃ sEnd, runnerRun (.gym gEnvTerm) 3 5 [gAg] [] 0 = .ok (.inl 1, sEnd)) ∧
    (∃ sEnd, runnerRun (.multi mEnvTerm) 3 5 [] [("a", gAg)] 0
        = .ok (.inr [("a", 2)], sEnd)) := by
  constructor
  · exact (C5_reward_averaging gEnvTerm mEnvTerm gAg [] 3 5 1 (fun _ => 0) 0).1
      (by omega) (fun s => ⟨s, 1, [san], rfl⟩)
  · exact (C5_reward_averaging gEnvTerm mEnvTerm gAg [("a", gAg)] 3 5 1 (fun _ => 2) 0).2
      (by omega) (List.cons_ne_nil _ _) (by simp) (fun s => ⟨s, 1, ["a"], rfl⟩)
